import Mathlib

/-!
Verification of the bone-relative geometry and placement engine of the
fishbone-diagram editor (fishbone.js, v6 revision of the script).

The script's IEEE-754 doubles are modelled as rational numbers: every
algorithm under study (projection, clamping, anchor spacing, import
sanitisation) is exact real arithmetic in the source.  A separate JSNum
type models the JavaScript number line including NaN and the infinities
for the one property where the NaN behaviour of Math.min / Math.max is
itself the question.  Random uid() identifiers are modelled as explicitly
supplied identifier arguments or fixed distinct placeholder strings; no
property below depends on identifier values.
-/

namespace Fishbone

/-- The script's helper clamp(x, a, b) = Math.max(a, Math.min(b, x)). -/
def clamp (x a b : ℚ) : ℚ := max a (min b x)

/-- Lower bound 0.08 of the stored block-parameter band. -/
def tLo : ℚ := 8 / 100

/-- Upper bound 0.92 of the stored block-parameter band. -/
def tHi : ℚ := 92 / 100

/-- A point of the fixed 1200 x 720 logical drawing space. -/
structure Point where
  x : ℚ
  y : ℚ
deriving DecidableEq

/-- Which half of the diagram a category bone belongs to. -/
inductive Side where
  | top
  | bottom
deriving DecidableEq

/-- A category bone as stored in the catBones map:
xSpine, ySpine, xEdge, yEdge and the side tag. -/
structure Bone where
  xSpine : ℚ
  ySpine : ℚ
  xEdge : ℚ
  yEdge : ℚ
  side : Side
deriving DecidableEq

/-- The spine end point A of a bone. -/
def spinePt (bone : Bone) : Point := ⟨bone.xSpine, bone.ySpine⟩

/-- The edge end point B of a bone. -/
def edgePt (bone : Bone) : Point := ⟨bone.xEdge, bone.yEdge⟩

/-- pointOnBone(bone, t): the affine point A + t (B - A) on the bone. -/
def pointOnBone (bone : Bone) (t : ℚ) : Point :=
  ⟨bone.xSpine + t * (bone.xEdge - bone.xSpine),
   bone.ySpine + t * (bone.yEdge - bone.ySpine)⟩

/-- The squared segment length abx*abx + aby*aby: the denominator computed
inside projectT. -/
def sqLen (a b : Point) : ℚ :=
  (b.x - a.x) * (b.x - a.x) + (b.y - a.y) * (b.y - a.y)

/-- The 1e-6 degeneracy epsilon of projectT. -/
def eps : ℚ := 1 / 1000000

/-- projectT(p, a, b): scalar projection of p - a onto b - a normalised by
the squared length, with the degenerate guard returning 0. -/
def projectT (p a b : Point) : ℚ :=
  if sqLen a b < eps then 0
  else ((p.x - a.x) * (b.x - a.x) + (p.y - a.y) * (b.y - a.y)) / sqLen a b

/-- A heading block: title, bullets, bone parameter t and the optional
persisted width override w. -/
structure Block where
  id : String
  title : String
  bullets : List String
  t : ℚ
  w : Option ℚ
deriving DecidableEq

/-- mkBlock(t) from the script; uid() is modelled as an explicitly supplied
identifier. -/
def mkBlock (id : String) (t : ℚ) : Block :=
  ⟨id, "", [""], clamp t tLo tHi, none⟩

/-- A category: fixed side, editable label, list of heading blocks. -/
structure Category where
  id : String
  side : Side
  label : String
  blocks : List Block
deriving DecidableEq

/-- The global appearance record of the model. -/
structure Appearance where
  boneColor : String
  boneThickness : ℚ
  fontSize : ℚ
  arrowWidth : ℚ
  labelWidth : ℚ
  ribLength : ℚ
  blockWidth : ℚ
  boneSlant : ℚ
deriving DecidableEq

/-- The whole persisted model. -/
structure Model where
  version : Nat
  effectText : String
  effectPos : ℚ × ℚ
  effectSize : ℚ × ℚ
  appearance : Appearance
  categories : List Category
deriving DecidableEq

/-- The appearance record of defaultModel(). -/
def defaultAppearance : Appearance :=
  ⟨"#c00000", 10, 12, 140, 200, 150, 300, 120⟩

/-- The six classic default categories of defaultModel(), with fixed
placeholder identifiers standing in for the random uid() values. -/
def defCat0 : Category := ⟨"cat0", Side.top, "People", [mkBlock "blk0" (26/100)]⟩

/-- Second default category. -/
def defCat1 : Category := ⟨"cat1", Side.top, "Methods", [mkBlock "blk1" (36/100)]⟩

/-- Third default category. -/
def defCat2 : Category := ⟨"cat2", Side.top, "Machines", [mkBlock "blk2" (26/100)]⟩

/-- Fourth default category. -/
def defCat3 : Category := ⟨"cat3", Side.bottom, "Materials", [mkBlock "blk3" (26/100)]⟩

/-- Fifth default category. -/
def defCat4 : Category := ⟨"cat4", Side.bottom, "Measurement", [mkBlock "blk4" (36/100)]⟩

/-- Sixth default category. -/
def defCat5 : Category := ⟨"cat5", Side.bottom, "Environment", [mkBlock "blk5" (26/100)]⟩

/-- defaultModel() from the script. -/
def defaultModel : Model :=
  { version := 6
    effectText := "Add your problem here"
    effectPos := (0, 0)
    effectSize := (180, 110)
    appearance := defaultAppearance
    categories := [defCat0, defCat1, defCat2, defCat3, defCat4, defCat5] }

/-- catsBySide(side): the categories on one side, in declared order. -/
def catsBySide (m : Model) (s : Side) : List Category :=
  m.categories.filter (fun c => c.side == s)

/-- spineAnchors(n, startX, endX): n evenly spaced anchors along the spine
band, or the band midpoint when n is at most one. -/
def spineAnchors (n : Nat) (startX endX : ℚ) : List ℚ :=
  if n ≤ 1 then [(startX + endX) / 2]
  else (List.range n).map (fun (i : Nat) => startX + (i : ℚ) * ((endX - startX) / ((n : ℚ) - 1)))

/-- One category bone as built by drawStaticBones: the spine anchor at the
spine height, and the edge point slanted left and clamped into the canvas
(clamp(xSpine - slant, 90, W - 40) with W = 1200). -/
def boneForAnchor (xSpine slant ySpineV yEdgeV : ℚ) (sd : Side) : Bone :=
  ⟨xSpine, ySpineV, clamp (xSpine - slant) 90 (1200 - 40), yEdgeV, sd⟩

/-- The bones drawStaticBones builds for the categories of one side: the
i-th category, in declared order, is paired with the i-th spine anchor. -/
def drawStaticBonesSide (cats : List Category) (startX endX slant ySpineV yEdgeV : ℚ)
    (sd : Side) : List (String × Bone) :=
  (cats.zip (spineAnchors cats.length startX endX)).map
    (fun cx => (cx.1.id, boneForAnchor cx.2 slant ySpineV yEdgeV sd))

/-- drawStaticBones: the catBones map rebuilt from the model, keyed by
category id.  W = 1200, H = 720, midY = 360, marginL = 160,
slant = 120 + boneSlant, band from spineStart + 140 to spineEnd - 30,
yTop = 70, yBot = H - 70.  Only the geometry is modelled; the SVG drawing
calls have no further observable state. -/
def drawStaticBones (m : Model) : List (String × Bone) :=
  let a := m.appearance
  let slant := 120 + a.boneSlant
  let spineStart : ℚ := 160
  let spineEnd : ℚ := 1200 - a.arrowWidth
  drawStaticBonesSide (catsBySide m Side.top) (spineStart + 140) (spineEnd - 30)
      slant 360 70 Side.top ++
    drawStaticBonesSide (catsBySide m Side.bottom) (spineStart + 140) (spineEnd - 30)
      slant 360 (720 - 70) Side.bottom

/-- Rewrites every block list of the category with the given id; other
categories are untouched.  Shared shape of the script's per-category
mutations (identifiers are unique as generated by uid()). -/
def updateBlocks (m : Model) (catId : String) (f : List Block → List Block) : Model :=
  { m with categories :=
      m.categories.map (fun c =>
        if c.id = catId then { c with blocks := f c.blocks } else c) }

/-- Rewrites one block, addressed by category id and block id. -/
def updateBlock (m : Model) (catId blockId : String) (f : Block → Block) : Model :=
  updateBlocks m catId (fun bs => bs.map (fun b => if b.id = blockId then f b else b))

/-- The delBlock click handler (after the user confirms): the heading is
filtered out of its category's block list. -/
def delBlockClick (m : Model) (catId blockId : String) : Model :=
  updateBlocks m catId (fun bs => bs.filter (fun b => b.id != blockId))

/-- The bullet delete handler: splice the i-th bullet out, and push one
empty bullet back when the list became empty. -/
def delBulletClick (m : Model) (catId blockId : String) (i : Nat) : Model :=
  updateBlock m catId blockId (fun b =>
    let bs := b.bullets.eraseIdx i
    { b with bullets := if bs.isEmpty then [""] else bs })

/-- The btnAddBullet click handler: appends "New bullet…" to the selected
block (no-op when nothing is selected). -/
def btnAddBulletClick (m : Model) (selCatId selBlockId : Option String) : Model :=
  match selCatId, selBlockId with
  | some cid, some bid =>
      updateBlock m cid bid (fun b => { b with bullets := b.bullets ++ ["New bullet…"] })
  | _, _ => m

/-- The btnAddHeading click handler: appends a new block whose t is
clamp(baseT + 0.10, 0.08, 0.92), baseT being the selected sibling's t when
one is selected in that category and 0.3 otherwise. -/
def btnAddHeadingClick (m : Model) (selCatId selBlockId : Option String)
    (freshId : String) : Model :=
  match selCatId with
  | none => m
  | some cid =>
    match m.categories.find? (fun c => c.id == cid) with
    | none => m
    | some cat =>
      let sel : Option Block := match selBlockId with
        | none => none
        | some bid => cat.blocks.find? (fun b => b.id == bid)
      let baseT := match sel with
        | some b => b.t
        | none => (3 : ℚ) / 10
      let newT := clamp (baseT + 10/100) tLo tHi
      updateBlocks m cid
        (fun bs => bs ++ [⟨freshId, "New heading", ["New bullet…"], newT, none⟩])

/-- The drag state stored by startDrag. -/
structure DragState where
  catId : String
  blockId : String
  tOffset : ℚ
deriving DecidableEq

/-- startDrag: projects the press point onto the bone (grabT), reads the
block's clamped current t, and stores tOffset = currentT - grabT. -/
def startDrag (catId blockId : String) (block : Block) (press : Point) (bone : Bone) :
    DragState :=
  ⟨catId, blockId, clamp block.t tLo tHi - projectT press (spinePt bone) (edgePt bone)⟩

/-- The t written by one onDragMove step:
clamp(projectT(pointer, A, B) + tOffset, 0.08, 0.92). -/
def dragMoveT (p : Point) (bone : Bone) (tOffset : ℚ) : ℚ :=
  clamp (projectT p (spinePt bone) (edgePt bone) + tOffset) tLo tHi

/-- onDragMove: writes dragMoveT into the dragged block. -/
def onDragMove (m : Model) (drag : DragState) (p : Point) (bone : Bone) : Model :=
  updateBlock m drag.catId drag.blockId (fun b => { b with t := dragMoveT p bone drag.tOffset })

/-- A block of a parsed import payload.  An empty id models a falsy id;
none for bullets models a non-array bullets field; none for t models an
absent t (the ?? 0.3 default).  All numbers here are finite: the NaN case
is studied separately with JSNum. -/
structure PBlock where
  id : String
  title : String
  bullets : Option (List String)
  t : Option ℚ
deriving DecidableEq

/-- A category of a parsed import payload.  The side field is carried to
show the handler never reads it.  none for blocks models a non-array
blocks field. -/
structure PCategory where
  id : String
  side : String
  label : String
  blocks : Option (List PBlock)
deriving DecidableEq

/-- A parsed appearance payload: none per field models an absent key
(object spread overrides defaults per present key). -/
structure PAppearance where
  boneColor : Option String
  boneThickness : Option ℚ
  fontSize : Option ℚ
  arrowWidth : Option ℚ
  labelWidth : Option ℚ
  ribLength : Option ℚ
  blockWidth : Option ℚ
  boneSlant : Option ℚ
deriving DecidableEq

/-- A parsed import object.  none for categories models a missing or
non-array categories field; the empty effectText string models a falsy
effectText. -/
structure ImportObj where
  effectText : String
  effectPos : Option (Option ℚ × Option ℚ)
  effectSize : Option (Option ℚ × Option ℚ)
  appearance : Option PAppearance
  categories : Option (List PCategory)
deriving DecidableEq

/-- The JavaScript string expression String(s || d): the default replaces a
falsy (empty) string. -/
def jsOr (s d : String) : String := if s = "" then d else s

/-- The JavaScript numeric expression Number(x || d) over finite numbers:
the default replaces an absent or zero (falsy) value. -/
def jsNumOr (o : Option ℚ) (d : ℚ) : ℚ :=
  match o with
  | some q => if q = 0 then d else q
  | none => d

/-- Sanitisation of one payload block by the import handler: fresh id when
the payload id is falsy, bullets defaulted to [""] when not an array, and
t put through clamp(Number(sb.t ?? 0.3), 0.08, 0.92).  The payload t here
is a finite rational; a non-numeric payload t, whose Number coercion is
NaN and which the same clamp stores as NaN, is modelled by importTJS. -/
def sanitizeBlock (fresh : String) (sb : PBlock) : Block :=
  { id := jsOr sb.id fresh
    title := sb.title
    bullets := sb.bullets.getD [""]
    t := clamp (sb.t.getD (3/10)) tLo tHi
    w := none }

/-- The fixed six-category import mapping, one default category at a time:
payload category i (an empty stand-in when absent) supplies id and label
when truthy, the side always comes from the default, and blocks are the
sanitised payload blocks or one default mkBlock(0.3). -/
def importCategoryAt (freshB : Nat → Nat → String) (cats : List PCategory)
    (i : Nat) (dc : Category) : Category :=
  let sc := (cats.get? i).getD ⟨"", "", "", none⟩
  { id := jsOr sc.id dc.id
    side := dc.side
    label := jsOr sc.label dc.label
    blocks := match sc.blocks with
      | some bs => bs.enum.map (fun jb => sanitizeBlock (freshB i jb.1) jb.2)
      | none => [mkBlock (freshB i 0) (3/10)] }

/-- The fixed mapping over the six default categories:
def.categories.map((dc, i) => ...). -/
def importCategories (freshB : Nat → Nat → String) (cats : List PCategory) :
    List Category :=
  defaultModel.categories.enum.map (fun p => importCategoryAt freshB cats p.1 p.2)

/-- The model the import handler builds from a successfully parsed object. -/
def applyImport (freshB : Nat → Nat → String) (obj : ImportObj) : Model :=
  let dm := defaultModel
  { version := 6
    effectText := jsOr obj.effectText dm.effectText
    effectPos := match obj.effectPos with
      | some p => (jsNumOr p.1 0, jsNumOr p.2 0)
      | none => dm.effectPos
    effectSize := match obj.effectSize with
      | some p => (jsNumOr p.1 dm.effectSize.1, jsNumOr p.2 dm.effectSize.2)
      | none => dm.effectSize
    appearance := match obj.appearance with
      | some pa =>
        { boneColor := pa.boneColor.getD dm.appearance.boneColor
          boneThickness := pa.boneThickness.getD dm.appearance.boneThickness
          fontSize := pa.fontSize.getD dm.appearance.fontSize
          arrowWidth := pa.arrowWidth.getD dm.appearance.arrowWidth
          labelWidth := pa.labelWidth.getD dm.appearance.labelWidth
          ribLength := pa.ribLength.getD dm.appearance.ribLength
          blockWidth := pa.blockWidth.getD dm.appearance.blockWidth
          boneSlant := pa.boneSlant.getD dm.appearance.boneSlant }
      | none => dm.appearance
    categories := importCategories freshB (obj.categories.getD []) }

/-- The fileImportJSON change handler around the parse: none models
anything inside the try block throwing (text that fails to parse, or a
non-object payload such as the JSON text null whose property access
throws), in which case the catch block leaves the live model untouched
and alerts; an input parsed to an object always replaces the whole model.
The boolean records whether the user-visible alert was shown. -/
def fileImportJSON (freshB : Nat → Nat → String) (parsed : Option ImportObj)
    (current : Model) : Model × Bool :=
  match parsed with
  | none => (current, true)
  | some obj => (applyImport freshB obj, false)

/-- The operations that can touch stored block parameters, as one step
type: a drag move (with the drag state's offset and the bone the engine
projects on), a JSON import, the add-heading and add-bullet commands, a
heading deletion and a bullet deletion. -/
inductive Op where
  | drag (catId blockId : String) (p : Point) (bone : Bone) (tOffset : ℚ)
  | imp (freshB : Nat → Nat → String) (obj : ImportObj)
  | addHead (selCatId selBlockId : Option String) (freshId : String)
  | addBul (selCatId selBlockId : Option String)
  | delHead (catId blockId : String)
  | delBul (catId blockId : String) (i : Nat)

/-- One step of the editor on the model. -/
def applyOp (m : Model) (op : Op) : Model :=
  match op with
  | Op.drag catId blockId p bone tOffset => onDragMove m ⟨catId, blockId, tOffset⟩ p bone
  | Op.imp freshB obj => (fileImportJSON freshB (some obj) m).1
  | Op.addHead selCatId selBlockId freshId => btnAddHeadingClick m selCatId selBlockId freshId
  | Op.addBul selCatId selBlockId => btnAddBulletClick m selCatId selBlockId
  | Op.delHead catId blockId => delBlockClick m catId blockId
  | Op.delBul catId blockId i => delBulletClick m catId blockId i

/-- A whole sequence of editor operations. -/
def applyOps (m : Model) (ops : List Op) : Model := ops.foldl applyOp m

/-- The stored-parameter band invariant for one block. -/
def tOk (b : Block) : Prop := tLo ≤ b.t ∧ b.t ≤ tHi

/-- Every stored block parameter of the model lies in [0.08, 0.92]. -/
def tInv (m : Model) : Prop := ∀ c ∈ m.categories, ∀ b ∈ c.blocks, tOk b

instance (b : Block) : Decidable (tOk b) := by unfold tOk; infer_instance

instance (m : Model) : Decidable (tInv m) := by unfold tInv; infer_instance

/-- Every category of the model keeps at least one block. -/
def blockInv (m : Model) : Prop := ∀ c ∈ m.categories, c.blocks ≠ []

/-- Every block of the model keeps at least one bullet string. -/
def bulletInv (m : Model) : Prop := ∀ c ∈ m.categories, ∀ b ∈ c.blocks, b.bullets ≠ []

instance (m : Model) : Decidable (blockInv m) := by unfold blockInv; infer_instance

instance (m : Model) : Decidable (bulletInv m) := by unfold bulletInv; infer_instance

/-- The JavaScript number line where the NaN and infinity behaviour of the
built-in Math.min and Math.max matters. -/
inductive JSNum where
  | nan
  | posInf
  | negInf
  | num (q : ℚ)
deriving DecidableEq

/-- Math.min: NaN absorbs, negative infinity wins, otherwise the rational
minimum. -/
def jsMin : JSNum → JSNum → JSNum
  | JSNum.nan, _ => JSNum.nan
  | _, JSNum.nan => JSNum.nan
  | JSNum.negInf, _ => JSNum.negInf
  | _, JSNum.negInf => JSNum.negInf
  | JSNum.posInf, y => y
  | x, JSNum.posInf => x
  | JSNum.num a, JSNum.num b => JSNum.num (min a b)

/-- Math.max: NaN absorbs, positive infinity wins, otherwise the rational
maximum. -/
def jsMax : JSNum → JSNum → JSNum
  | JSNum.nan, _ => JSNum.nan
  | _, JSNum.nan => JSNum.nan
  | JSNum.posInf, _ => JSNum.posInf
  | _, JSNum.posInf => JSNum.posInf
  | JSNum.negInf, y => y
  | x, JSNum.negInf => x
  | JSNum.num a, JSNum.num b => JSNum.num (max a b)

/-- The script's clamp evaluated with JavaScript number semantics. -/
def jsClamp (x a b : JSNum) : JSNum := jsMax a (jsMin b x)

/-- The t the import handler stores for a payload block whose t field
coerced to the JavaScript number x: clamp(x, 0.08, 0.92) under JavaScript
semantics (Number of a non-numeric JSON value is NaN). -/
def importTJS (x : JSNum) : JSNum := jsClamp x (JSNum.num tLo) (JSNum.num tHi)

/-- A parseable import object that is structurally invalid: it has no
categories array at all (for example the JSON text of an empty object). -/
def invalidImportObj : ImportObj := ⟨"", none, none, none, none⟩

/-- A live model holding user content, to observe whether an import
retains it. -/
def priorModel : Model := { defaultModel with effectText := "user entered content" }

/-- The epsilon is positive, so a squared length at least eps is nonzero. -/
theorem sqLen_ne_zero {a b : Point} (h : eps ≤ sqLen a b) : sqLen a b ≠ 0 := by
  have h0 : (0 : ℚ) < sqLen a b := lt_of_lt_of_le (by norm_num [eps]) h
  exact ne_of_gt h0

/-- Projecting the affine point at parameter t back onto a non-degenerate
bone recovers t exactly. -/
theorem projectT_pointOnBone (bone : Bone) (t : ℚ)
    (h : eps ≤ sqLen (spinePt bone) (edgePt bone)) :
    projectT (pointOnBone bone t) (spinePt bone) (edgePt bone) = t := by
  have hne := sqLen_ne_zero h
  rw [projectT, if_neg (not_lt.mpr h)]
  have hnum : ((pointOnBone bone t).x - (spinePt bone).x) * ((edgePt bone).x - (spinePt bone).x) +
      ((pointOnBone bone t).y - (spinePt bone).y) * ((edgePt bone).y - (spinePt bone).y)
      = t * sqLen (spinePt bone) (edgePt bone) := by
    simp only [pointOnBone, spinePt, edgePt, sqLen]
    ring
  rw [hnum, mul_div_assoc, div_self hne, mul_one]

/-- The spine point is the affine point at parameter 0. -/
theorem spinePt_eq_pointOnBone (bone : Bone) : spinePt bone = pointOnBone bone 0 := by
  simp only [spinePt, pointOnBone, Point.mk.injEq]
  constructor <;> ring

/-- The edge point is the affine point at parameter 1. -/
theorem edgePt_eq_pointOnBone (bone : Bone) : edgePt bone = pointOnBone bone 1 := by
  simp only [edgePt, pointOnBone, Point.mk.injEq]
  constructor <;> ring

/-- Claim C1: on a non-degenerate bone (squared length at least the 1e-6
epsilon), projectT inverts the affine point map: every point of the
segment from A to B projects to its own parameter, so pointOnBone applied
to the projection returns the point; in particular the spine point
projects to 0 and the edge point to 1. -/
theorem projectT_inverts_pointOnBone (bone : Bone) (t : ℚ)
    (h : eps ≤ sqLen (spinePt bone) (edgePt bone)) (ht0 : 0 ≤ t) (ht1 : t ≤ 1) :
    pointOnBone bone (projectT (pointOnBone bone t) (spinePt bone) (edgePt bone)) =
      pointOnBone bone t ∧
    projectT (spinePt bone) (spinePt bone) (edgePt bone) = 0 ∧
    projectT (edgePt bone) (spinePt bone) (edgePt bone) = 1 := by
  refine ⟨?_, ?_, ?_⟩
  · rw [projectT_pointOnBone bone t h]
  · nth_rewrite 1 [spinePt_eq_pointOnBone bone]
    rw [projectT_pointOnBone bone 0 h]
  · nth_rewrite 1 [edgePt_eq_pointOnBone bone]
    rw [projectT_pointOnBone bone 1 h]

/-- Concrete witness for C1: the default first top bone, grabbed at its
midpoint. -/
theorem projectT_inverts_pointOnBone_witness :
    eps ≤ sqLen (spinePt ⟨300, 360, 90, 70, Side.top⟩) (edgePt ⟨300, 360, 90, 70, Side.top⟩) ∧
    (0 : ℚ) ≤ 1/2 ∧ (1 : ℚ)/2 ≤ 1 ∧
    (pointOnBone ⟨300, 360, 90, 70, Side.top⟩
        (projectT (pointOnBone ⟨300, 360, 90, 70, Side.top⟩ (1/2))
          (spinePt ⟨300, 360, 90, 70, Side.top⟩) (edgePt ⟨300, 360, 90, 70, Side.top⟩)) =
      pointOnBone ⟨300, 360, 90, 70, Side.top⟩ (1/2) ∧
    projectT (spinePt ⟨300, 360, 90, 70, Side.top⟩) (spinePt ⟨300, 360, 90, 70, Side.top⟩)
        (edgePt ⟨300, 360, 90, 70, Side.top⟩) = 0 ∧
    projectT (edgePt ⟨300, 360, 90, 70, Side.top⟩) (spinePt ⟨300, 360, 90, 70, Side.top⟩)
        (edgePt ⟨300, 360, 90, 70, Side.top⟩) = 1) :=
  ⟨by norm_num [eps, sqLen, spinePt, edgePt], by norm_num, by norm_num,
    projectT_inverts_pointOnBone ⟨300, 360, 90, 70, Side.top⟩ (1/2)
      (by norm_num [eps, sqLen, spinePt, edgePt]) (by norm_num) (by norm_num)⟩

/-- Every bone one side-builder emits keeps the side's spine and edge
heights. -/
theorem drawStaticBonesSide_heights {cats : List Category}
    {startX endX slant ySpineV yEdgeV : ℚ} {sd : Side} {pr : String × Bone}
    (h : pr ∈ drawStaticBonesSide cats startX endX slant ySpineV yEdgeV sd) :
    pr.2.ySpine = ySpineV ∧ pr.2.yEdge = yEdgeV := by
  rcases List.mem_map.1 h with ⟨cx, _, rfl⟩
  exact ⟨rfl, rfl⟩

/-- Claim C2: projectT is total with the degenerate guard returning exactly
0 below the epsilon, and every bone the builder produces has distinct
spine and edge points with squared length far above the epsilon, so the
degenerate branch is unreachable for builder-produced bones. -/
theorem projectT_degenerate_guard (m : Model) :
    (∀ p a b : Point, sqLen a b < eps → projectT p a b = 0) ∧
    (∀ pr ∈ drawStaticBones m,
      spinePt pr.2 ≠ edgePt pr.2 ∧ eps ≤ sqLen (spinePt pr.2) (edgePt pr.2)) := by
  constructor
  · intro p a b h
    rw [projectT, if_pos h]
  · intro pr hpr
    have hy : pr.2.ySpine = 360 ∧ (pr.2.yEdge = 70 ∨ pr.2.yEdge = 720 - 70) := by
      rcases List.mem_append.1 hpr with h | h
      · rcases drawStaticBonesSide_heights h with ⟨h1, h2⟩
        exact ⟨h1, Or.inl h2⟩
      · rcases drawStaticBonesSide_heights h with ⟨h1, h2⟩
        exact ⟨h1, Or.inr h2⟩
    have hne : pr.2.ySpine ≠ pr.2.yEdge := by
      rcases hy with ⟨h1, h2 | h2⟩ <;> rw [h1, h2] <;> norm_num
    constructor
    · intro hcon
      exact hne (congrArg Point.y hcon)
    · have hsq : sqLen (spinePt pr.2) (edgePt pr.2) =
          (pr.2.xEdge - pr.2.xSpine) * (pr.2.xEdge - pr.2.xSpine) +
          (pr.2.yEdge - pr.2.ySpine) * (pr.2.yEdge - pr.2.ySpine) := rfl
      have hx : 0 ≤ (pr.2.xEdge - pr.2.xSpine) * (pr.2.xEdge - pr.2.xSpine) :=
        mul_self_nonneg _
      rcases hy with ⟨h1, h2 | h2⟩ <;> rw [hsq, h1, h2] <;> [skip; skip] <;>
        · rw [eps]; nlinarith

/-- The clamp helper is monotone in its argument. -/
theorem clamp_mono {x y a b : ℚ} (h : x ≤ y) : clamp x a b ≤ clamp y a b :=
  max_le_max le_rfl (min_le_min le_rfl h)

/-- Claim C9: for each side the builder computes one spine anchor per
category, evenly spaced between the band start and the band end in
declared order (for two or more categories the anchors run from the band
start to the band end in equal steps; one category gets the band
midpoint), and two same-side bones at distinct anchors share no point
other than possibly a common clamped edge endpoint: with even anchor
spacing the bones never overlap or cross. -/
theorem spineAnchors_even_and_bones_disjoint :
    (∀ (n i : Nat) (sX eX : ℚ), 2 ≤ n → i < n →
      (spineAnchors n sX eX).get? i =
        some (sX + (i : ℚ) * ((eX - sX) / ((n : ℚ) - 1)))) ∧
    (∀ (n : Nat) (sX eX : ℚ), 2 ≤ n →
      (spineAnchors n sX eX).get? 0 = some sX ∧
      (spineAnchors n sX eX).get? (n - 1) = some eX) ∧
    (∀ sX eX : ℚ, spineAnchors 1 sX eX = [(sX + eX) / 2]) ∧
    (∀ (cats : List Category) (sX eX slant ys ye x : ℚ) (sd : Side) (i : Nat)
      (hi : i < cats.length),
      (spineAnchors cats.length sX eX).get? i = some x →
      (drawStaticBonesSide cats sX eX slant ys ye sd).get? i =
        some ((cats.get ⟨i, hi⟩).id, boneForAnchor x slant ys ye sd)) ∧
    (∀ (n i j : Nat) (sX eX : ℚ), 2 ≤ n → i < j → j < n → sX < eX →
      sX + (i : ℚ) * ((eX - sX) / ((n : ℚ) - 1)) <
        sX + (j : ℚ) * ((eX - sX) / ((n : ℚ) - 1))) ∧
    (∀ (a b slant ys ye t s : ℚ) (sd : Side), a < b → ye ≠ ys →
      0 ≤ t → t ≤ 1 → 0 ≤ s → s ≤ 1 →
      pointOnBone (boneForAnchor a slant ys ye sd) t =
        pointOnBone (boneForAnchor b slant ys ye sd) s →
      t = 1 ∧ s = 1) := by
  have anchors_get : ∀ (n i : Nat) (sX eX : ℚ), 2 ≤ n → i < n →
      (spineAnchors n sX eX).get? i =
        some (sX + (i : ℚ) * ((eX - sX) / ((n : ℚ) - 1))) := by
    intro n i sX eX h2 hi
    rw [spineAnchors, if_neg (by omega)]
    rw [List.get?_map, List.get?_range hi]
    rfl
  refine ⟨anchors_get, ?_, ?_, ?_, ?_, ?_⟩
  · intro n sX eX h2
    have hn1 : ((n : ℚ) - 1) ≠ 0 := by
      have : (2 : ℚ) ≤ (n : ℚ) := by exact_mod_cast h2
      linarith
    constructor
    · rw [anchors_get n 0 sX eX h2 (by omega)]
      norm_num
    · rw [anchors_get n (n - 1) sX eX h2 (by omega)]
      have hcast : ((n - 1 : Nat) : ℚ) = (n : ℚ) - 1 := by
        have : 1 ≤ n := by omega
        push_cast [this]
        ring
      rw [hcast, mul_div_cancel₀ _ hn1]
      norm_num
  · intro sX eX
    simp [spineAnchors]
  · intro cats sX eX slant ys ye x sd i hi hanch
    rw [drawStaticBonesSide, List.get?_map]
    have hzip : ((cats.zip (spineAnchors cats.length sX eX)).get? i) =
        some (cats.get ⟨i, hi⟩, x) := by
      rw [List.get?_zip_eq_some]
      exact ⟨List.get?_eq_get hi, hanch⟩
    rw [hzip]
    rfl
  · intro n i j sX eX h2 hij hj hse
    have hstep : 0 < (eX - sX) / ((n : ℚ) - 1) := by
      apply div_pos (by linarith)
      have : (2 : ℚ) ≤ (n : ℚ) := by exact_mod_cast h2
      linarith
    have hijq : (i : ℚ) < (j : ℚ) := by exact_mod_cast hij
    have := mul_lt_mul_of_pos_right hijq hstep
    linarith
  · intro a b slant ys ye t s sd hab hye ht0 ht1 hs0 hs1 heq
    have hxe : clamp (a - slant) 90 (1200 - 40) ≤ clamp (b - slant) 90 (1200 - 40) :=
      clamp_mono (by linarith)
    have hx := congrArg Point.x heq
    have hy := congrArg Point.y heq
    simp only [pointOnBone, boneForAnchor] at hx hy
    have hts : t = s := by
      have h1 : (t - s) * (ye - ys) = 0 := by linarith
      rcases mul_eq_zero.1 h1 with h | h
      · linarith
      · exact absurd (by linarith : ye = ys) hye
    rw [← hts] at hx
    have key : (b - a) * (1 - t) + t * (clamp (b - slant) 90 (1200 - 40) -
        clamp (a - slant) 90 (1200 - 40)) = 0 := by linarith
    have h1 : 0 ≤ t * (clamp (b - slant) 90 (1200 - 40) -
        clamp (a - slant) 90 (1200 - 40)) := mul_nonneg ht0 (by linarith)
    have h2 : 0 ≤ (b - a) * (1 - t) := mul_nonneg (by linarith) (by linarith)
    have h3 : (b - a) * (1 - t) = 0 := by linarith
    have h4 : 1 - t = 0 := by
      rcases mul_eq_zero.1 h3 with h | h
      · exact absurd h (by intro hc; linarith)
      · exact h
    constructor
    · linarith
    · linarith

/-- The band bounds are ordered. -/
theorem tLo_le_tHi : tLo ≤ tHi := by norm_num [tLo, tHi]

/-- Clamping into the band always lands in the band. -/
theorem clamp_tOk (x : ℚ) : tLo ≤ clamp x tLo tHi ∧ clamp x tLo tHi ≤ tHi :=
  ⟨le_max_left _ _, max_le tLo_le_tHi (min_le_left _ _)⟩

/-- Freshly created blocks carry a clamped parameter. -/
theorem tOk_mkBlock (id : String) (t : ℚ) : tOk (mkBlock id t) :=
  ⟨(clamp_tOk t).1, (clamp_tOk t).2⟩

/-- updateBlocks preserves the band invariant when the block-list rewrite
does. -/
theorem tInv_updateBlocks {m : Model} {cid : String} {f : List Block → List Block}
    (hm : tInv m) (hf : ∀ bs, (∀ b ∈ bs, tOk b) → ∀ b ∈ f bs, tOk b) :
    tInv (updateBlocks m cid f) := by
  intro c hc b hb
  rcases List.mem_map.1 hc with ⟨c0, hc0, rfl⟩
  by_cases h : c0.id = cid
  · simp only [if_pos h] at hb
    exact hf c0.blocks (hm c0 hc0) b hb
  · simp only [if_neg h] at hb
    exact hm c0 hc0 b hb

/-- updateBlock preserves the band invariant when the per-block rewrite
does. -/
theorem tInv_updateBlock {m : Model} {cid bid : String} {f : Block → Block}
    (hm : tInv m) (hf : ∀ b, tOk b → tOk (f b)) : tInv (updateBlock m cid bid f) := by
  apply tInv_updateBlocks hm
  intro bs hbs b hb
  rcases List.mem_map.1 hb with ⟨b0, hb0, rfl⟩
  by_cases h : b0.id = bid
  · rw [if_pos h]
    exact hf b0 (hbs b0 hb0)
  · rw [if_neg h]
    exact hbs b0 hb0

/-- Every block an import builds for one category slot is in the band. -/
theorem tOk_importCategoryAt (fb : Nat → Nat → String) (cats : List PCategory)
    (i : Nat) (dc : Category) : ∀ b ∈ (importCategoryAt fb cats i dc).blocks, tOk b := by
  intro b hb
  simp only [importCategoryAt] at hb
  cases hsc : ((cats.get? i).getD ⟨"", "", "", none⟩).blocks with
  | none =>
    rw [hsc] at hb
    simp only [List.mem_singleton] at hb
    subst hb
    exact tOk_mkBlock _ _
  | some bs =>
    rw [hsc] at hb
    simp only [List.mem_map] at hb
    rcases hb with ⟨jb, _, rfl⟩
    exact ⟨(clamp_tOk _).1, (clamp_tOk _).2⟩

/-- Every model an import builds satisfies the band invariant. -/
theorem tInv_applyImport (fb : Nat → Nat → String) (obj : ImportObj) :
    tInv (applyImport fb obj) := by
  intro c hc b hb
  have hc2 : c ∈ importCategories fb (obj.categories.getD []) := hc
  simp only [importCategories, List.mem_map] at hc2
  rcases hc2 with ⟨p, _, rfl⟩
  exact tOk_importCategoryAt fb _ p.1 p.2 b hb

/-- One editor step preserves the band invariant. -/
theorem tInv_applyOp {m : Model} (hm : tInv m) (op : Op) : tInv (applyOp m op) := by
  cases op with
  | drag catId blockId p bone tOffset =>
    exact tInv_updateBlock hm (fun b _ => ⟨(clamp_tOk _).1, (clamp_tOk _).2⟩)
  | imp fb obj => exact tInv_applyImport fb obj
  | addHead selC selB fid =>
    show tInv (btnAddHeadingClick m selC selB fid)
    cases selC with
    | none => exact hm
    | some cid =>
      simp only [btnAddHeadingClick]
      cases hfind : m.categories.find? (fun c => c.id == cid) with
      | none => exact hm
      | some cat =>
        apply tInv_updateBlocks hm
        intro bs hbs b hb
        rcases List.mem_append.1 hb with h | h
        · exact hbs b h
        · rw [List.mem_singleton.1 h]
          exact ⟨(clamp_tOk _).1, (clamp_tOk _).2⟩
  | addBul selC selB =>
    show tInv (btnAddBulletClick m selC selB)
    cases selC with
    | none => cases selB <;> exact hm
    | some cid =>
      cases selB with
      | none => exact hm
      | some bid => exact tInv_updateBlock hm (fun b hb => hb)
  | delHead catId blockId =>
    apply tInv_updateBlocks hm
    intro bs hbs b hb
    exact hbs b (List.mem_of_mem_filter hb)
  | delBul catId blockId i =>
    exact tInv_updateBlock hm (fun b hb => hb)

/-- The default model starts inside the band. -/
theorem tInv_defaultModel : tInv defaultModel := by
  intro c hc b hb
  simp only [defaultModel, defCat0, defCat1, defCat2, defCat3, defCat4, defCat5,
    List.mem_cons, List.not_mem_nil, or_false] at hc
  rcases hc with rfl | rfl | rfl | rfl | rfl | rfl <;>
    · simp only [List.mem_singleton] at hb
      subst hb
      exact tOk_mkBlock _ _

/-- Any sequence of editor steps preserves the band invariant. -/
theorem tInv_applyOps {m : Model} (hm : tInv m) (ops : List Op) : tInv (applyOps m ops) := by
  induction ops generalizing m with
  | nil => exact hm
  | cons op ops ih => exact ih (tInv_applyOp hm op)

/-- Claim C3 amended: every operation writing a stored block parameter
(drag move, import, block creation) writes it through
clamp(., 0.08, 0.92) — a write of -5 stores 0.08 and a write of 5 stores
0.92 — while the return value of projectT itself is never clamped (it can
leave the band); hence after any sequence of operations whose import
payload parameters are finite numbers, starting from a model in the band,
every stored parameter lies in [0.08, 0.92].  (An import payload t that
coerces to NaN escapes the clamp and is stored as NaN: see the
counterexample below.) -/
theorem storedT_always_clamped :
    (∀ (m : Model) (ops : List Op), tInv m → tInv (applyOps m ops)) ∧
    tInv defaultModel ∧
    clamp (-5) tLo tHi = tLo ∧
    clamp 5 tLo tHi = tHi ∧
    projectT ⟨1960, 360⟩ ⟨300, 360⟩ ⟨1130, 360⟩ = 2 := by
  refine ⟨fun m ops hm => tInv_applyOps hm ops, tInv_defaultModel, ?_, ?_, ?_⟩
  · norm_num [clamp, tLo, tHi]
  · norm_num [clamp, tLo, tHi]
  · norm_num [projectT, sqLen, eps]

/-- Counterexample to claim C3 as stated: an import is one of the
operations that write a stored block parameter, yet for a payload block
whose t field coerces to the JavaScript number NaN the write at the
sanitisation site of the import stores NaN — the clamp evaluated under
JavaScript number semantics returns NaN — so after that single operation
the block's stored t is no finite number of [0.08, 0.92] at all. -/
theorem import_nonfinite_t_escapes_band :
    importTJS JSNum.nan = JSNum.nan ∧
    (∀ q : ℚ, importTJS JSNum.nan = JSNum.num q → ¬(tLo ≤ q ∧ q ≤ tHi)) := by
  refine ⟨rfl, ?_⟩
  intro q hq
  intro h
  exact JSNum.noConfusion hq

/-- Claim C4: the drag is offset-corrected — startDrag stores
tOffset = currentT - grabT, and every move writes
clamp(projectT(pointer) + tOffset, 0.08, 0.92) — so grabbing a block
stored at t = 0.4 exactly at the bone point for 0.4 and moving the
pointer to the bone point for 0.6 stores exactly 0.6. -/
theorem drag_offset_corrected (bone : Bone) (block : Block) (cid bid : String)
    (h : eps ≤ sqLen (spinePt bone) (edgePt bone)) (ht : block.t = 2/5) :
    (startDrag cid bid block (pointOnBone bone (2/5)) bone).tOffset = 0 ∧
    dragMoveT (pointOnBone bone (3/5)) bone
      (startDrag cid bid block (pointOnBone bone (2/5)) bone).tOffset = 3/5 ∧
    (∀ m : Model,
      onDragMove m (startDrag cid bid block (pointOnBone bone (2/5)) bone)
        (pointOnBone bone (3/5)) bone =
      updateBlock m cid bid (fun b => { b with t := 3/5 })) := by
  have hoff : (startDrag cid bid block (pointOnBone bone (2/5)) bone).tOffset = 0 := by
    show clamp block.t tLo tHi - projectT (pointOnBone bone (2/5)) (spinePt bone) (edgePt bone) = 0
    rw [projectT_pointOnBone bone (2/5) h, ht]
    norm_num [clamp, tLo, tHi]
  have hmove : dragMoveT (pointOnBone bone (3/5)) bone 0 = 3/5 := by
    rw [dragMoveT, projectT_pointOnBone bone (3/5) h]
    norm_num [clamp, tLo, tHi]
  refine ⟨hoff, by rw [hoff]; exact hmove, ?_⟩
  intro m
  show updateBlock m cid bid (fun b =>
      { b with t := (dragMoveT (pointOnBone bone (3/5)) bone
          (startDrag cid bid block (pointOnBone bone (2/5)) bone).tOffset) }) =
    updateBlock m cid bid (fun b => { b with t := 3/5 })
  rw [hoff, hmove]

/-- Concrete witness for C4: the first default top bone with a block
stored at t = 0.4. -/
theorem drag_offset_corrected_witness :
    eps ≤ sqLen (spinePt ⟨300, 360, 90, 70, Side.top⟩) (edgePt ⟨300, 360, 90, 70, Side.top⟩) ∧
    (Block.mk "b0" "" [""] (2/5) none).t = 2/5 ∧
    ((startDrag "c0" "b0" (Block.mk "b0" "" [""] (2/5) none)
        (pointOnBone ⟨300, 360, 90, 70, Side.top⟩ (2/5)) ⟨300, 360, 90, 70, Side.top⟩).tOffset = 0 ∧
      dragMoveT (pointOnBone ⟨300, 360, 90, 70, Side.top⟩ (3/5)) ⟨300, 360, 90, 70, Side.top⟩
        (startDrag "c0" "b0" (Block.mk "b0" "" [""] (2/5) none)
          (pointOnBone ⟨300, 360, 90, 70, Side.top⟩ (2/5)) ⟨300, 360, 90, 70, Side.top⟩).tOffset = 3/5 ∧
      (∀ m : Model,
        onDragMove m (startDrag "c0" "b0" (Block.mk "b0" "" [""] (2/5) none)
            (pointOnBone ⟨300, 360, 90, 70, Side.top⟩ (2/5)) ⟨300, 360, 90, 70, Side.top⟩)
          (pointOnBone ⟨300, 360, 90, 70, Side.top⟩ (3/5)) ⟨300, 360, 90, 70, Side.top⟩ =
        updateBlock m "c0" "b0" (fun b => { b with t := 3/5 }))) :=
  ⟨by norm_num [eps, sqLen, spinePt, edgePt], rfl,
    drag_offset_corrected ⟨300, 360, 90, 70, Side.top⟩ (Block.mk "b0" "" [""] (2/5) none)
      "c0" "b0" (by norm_num [eps, sqLen, spinePt, edgePt]) rfl⟩

/-- Claim C10: the add-heading command appends exactly one block to the
selected category, with t = clamp(baseT + 0.10, 0.08, 0.92) where baseT is
the selected sibling's stored t when the selection is a block of that
category and 0.3 otherwise; all other blocks and categories are
unchanged. -/
theorem addHeading_deterministic_t (m : Model) (cid : String) (selB : Option String)
    (fid : String) (cat : Category)
    (hfind : m.categories.find? (fun c => c.id == cid) = some cat) :
    btnAddHeadingClick m (some cid) selB fid =
      { m with categories :=
          m.categories.map (fun c =>
            if c.id = cid then
              { c with blocks := c.blocks ++
                  [⟨fid, "New heading", ["New bullet…"],
                    clamp ((match selB with
                      | none => (3 : ℚ)/10
                      | some bid =>
                        match cat.blocks.find? (fun b => b.id == bid) with
                        | some b => b.t
                        | none => (3 : ℚ)/10) + 10/100) tLo tHi, none⟩] }
            else c) } := by
  simp only [btnAddHeadingClick, hfind]
  cases selB with
  | none => rfl
  | some bid =>
    cases hb : cat.blocks.find? (fun b => b.id == bid) with
    | none => rfl
    | some b => rfl

/-- Concrete witness for C10: adding a heading to the first default
category with its only block selected. -/
theorem addHeading_deterministic_t_witness :
    defaultModel.categories.find? (fun c => c.id == "cat0") = some defCat0 ∧
    btnAddHeadingClick defaultModel (some "cat0") (some "blk0") "new" =
      { defaultModel with categories :=
          defaultModel.categories.map (fun c =>
            if c.id = "cat0" then
              { c with blocks := c.blocks ++
                  [⟨"new", "New heading", ["New bullet…"],
                    clamp ((match (some "blk0" : Option String) with
                      | none => (3 : ℚ)/10
                      | some bid =>
                        match defCat0.blocks.find? (fun b => b.id == bid) with
                        | some b => b.t
                        | none => (3 : ℚ)/10) + 10/100) tLo tHi, none⟩] }
            else c) } :=
  ⟨rfl, addHeading_deterministic_t defaultModel "cat0" (some "blk0") "new" defCat0 rfl⟩

/-- The fixed mapping unrolled over the six default categories. -/
theorem importCategories_unfold (fb : Nat → Nat → String) (cats : List PCategory) :
    importCategories fb cats =
      [importCategoryAt fb cats 0 defCat0, importCategoryAt fb cats 1 defCat1,
       importCategoryAt fb cats 2 defCat2, importCategoryAt fb cats 3 defCat3,
       importCategoryAt fb cats 4 defCat4, importCategoryAt fb cats 5 defCat5] := rfl

/-- Claim C5: a parsed payload supplying only four categories (truthy
labels, blocks arrays present) imports to exactly six categories — the
first four take label and sanitised blocks from the payload, the last two
take the default label with one default block at t = 0.3 — and the sides
are the three fixed upper then three fixed lower ones no matter what side
fields the payload carries. -/
theorem import_fixed_six_categories (fb : Nat → Nat → String)
    (c0 c1 c2 c3 : PCategory) (bs0 bs1 bs2 bs3 : List PBlock)
    (h0 : c0.label ≠ "") (h1 : c1.label ≠ "") (h2 : c2.label ≠ "") (h3 : c3.label ≠ "")
    (hb0 : c0.blocks = some bs0) (hb1 : c1.blocks = some bs1)
    (hb2 : c2.blocks = some bs2) (hb3 : c3.blocks = some bs3) :
    importCategories fb [c0, c1, c2, c3] =
      [ ⟨jsOr c0.id "cat0", Side.top, c0.label,
          bs0.enum.map (fun jb => sanitizeBlock (fb 0 jb.1) jb.2)⟩,
        ⟨jsOr c1.id "cat1", Side.top, c1.label,
          bs1.enum.map (fun jb => sanitizeBlock (fb 1 jb.1) jb.2)⟩,
        ⟨jsOr c2.id "cat2", Side.top, c2.label,
          bs2.enum.map (fun jb => sanitizeBlock (fb 2 jb.1) jb.2)⟩,
        ⟨jsOr c3.id "cat3", Side.bottom, c3.label,
          bs3.enum.map (fun jb => sanitizeBlock (fb 3 jb.1) jb.2)⟩,
        ⟨"cat4", Side.bottom, "Measurement", [mkBlock (fb 4 0) (3/10)]⟩,
        ⟨"cat5", Side.bottom, "Environment", [mkBlock (fb 5 0) (3/10)]⟩ ] := by
  rw [importCategories_unfold]
  simp only [importCategoryAt, defCat0, defCat1, defCat2, defCat3, defCat4, defCat5,
    List.get?, Option.getD, jsOr, hb0, hb1, hb2, hb3, if_neg h0, if_neg h1,
    if_neg h2, if_neg h3, if_true]

/-- Concrete witness for C5: a four-category payload with nonempty labels
and one block list apiece. -/
theorem import_fixed_six_categories_witness :
    (PCategory.mk "p0" "bottom" "Alpha" (some [])).label ≠ "" ∧
    (PCategory.mk "p1" "bottom" "Beta" (some [])).label ≠ "" ∧
    (PCategory.mk "p2" "ignored" "Gamma" (some [])).label ≠ "" ∧
    (PCategory.mk "p3" "ignored" "Delta" (some [⟨"", "", none, some 5⟩])).label ≠ "" ∧
    importCategories (fun _ _ => "f")
        [⟨"p0", "bottom", "Alpha", some []⟩, ⟨"p1", "bottom", "Beta", some []⟩,
         ⟨"p2", "ignored", "Gamma", some []⟩,
         ⟨"p3", "ignored", "Delta", some [⟨"", "", none, some 5⟩]⟩] =
      [ ⟨jsOr "p0" "cat0", Side.top, "Alpha",
          ([] : List PBlock).enum.map (fun jb => sanitizeBlock ((fun _ _ => "f") 0 jb.1) jb.2)⟩,
        ⟨jsOr "p1" "cat1", Side.top, "Beta",
          ([] : List PBlock).enum.map (fun jb => sanitizeBlock ((fun _ _ => "f") 1 jb.1) jb.2)⟩,
        ⟨jsOr "p2" "cat2", Side.top, "Gamma",
          ([] : List PBlock).enum.map (fun jb => sanitizeBlock ((fun _ _ => "f") 2 jb.1) jb.2)⟩,
        ⟨jsOr "p3" "cat3", Side.bottom, "Delta",
          ([(⟨"", "", none, some 5⟩ : PBlock)]).enum.map
            (fun jb => sanitizeBlock ((fun _ _ => "f") 3 jb.1) jb.2)⟩,
        ⟨"cat4", Side.bottom, "Measurement", [mkBlock ((fun _ _ => "f") 4 0) (3/10)]⟩,
        ⟨"cat5", Side.bottom, "Environment", [mkBlock ((fun _ _ => "f") 5 0) (3/10)]⟩ ] :=
  ⟨by decide, by decide, by decide, by decide,
    import_fixed_six_categories (fun _ _ => "f")
      ⟨"p0", "bottom", "Alpha", some []⟩ ⟨"p1", "bottom", "Beta", some []⟩
      ⟨"p2", "ignored", "Gamma", some []⟩ ⟨"p3", "ignored", "Delta", some [⟨"", "", none, some 5⟩]⟩
      [] [] [] [⟨"", "", none, some 5⟩]
      (by decide) (by decide) (by decide) (by decide) rfl rfl rfl rfl⟩

/-- Claim C6 (observed code bug): the import handler's clamp evaluated
with JavaScript number semantics propagates NaN — Math.min and Math.max
return NaN whenever an argument is NaN — so a payload block whose t
coerces to NaN is stored as NaN, not as a finite number of [0.08, 0.92];
the two infinities, by contrast, do clamp to the band edges. -/
theorem importT_nan_propagates :
    importTJS JSNum.nan = JSNum.nan ∧
    (¬ ∃ q : ℚ, importTJS JSNum.nan = JSNum.num q ∧ tLo ≤ q ∧ q ≤ tHi) ∧
    importTJS JSNum.posInf = JSNum.num tHi ∧
    importTJS JSNum.negInf = JSNum.num tLo := by
  refine ⟨rfl, ?_, ?_, rfl⟩
  · rintro ⟨q, hq, -, -⟩
    exact JSNum.noConfusion hq
  · show jsMax (JSNum.num tLo) (jsMin (JSNum.num tHi) JSNum.posInf) = JSNum.num tHi
    rw [show jsMin (JSNum.num tHi) JSNum.posInf = JSNum.num tHi from rfl]
    rw [show jsMax (JSNum.num tLo) (JSNum.num tHi) = JSNum.num (max tLo tHi) from rfl]
    rw [max_eq_right tLo_le_tHi]

/-- Counterexample to claim C7 as stated: the parseable but structurally
invalid import object with no categories field is not rejected — the live
model is replaced (the prior effect text is lost) and no notice is
shown. -/
theorem import_invalid_not_rejected :
    (fileImportJSON (fun _ _ => "f") (some invalidImportObj) priorModel).1 ≠ priorModel ∧
    (fileImportJSON (fun _ _ => "f") (some invalidImportObj) priorModel).2 = false := by
  constructor
  · intro h
    have he := congrArg Model.effectText h
    have hl : (fileImportJSON (fun _ _ => "f") (some invalidImportObj) priorModel).1.effectText =
        "Add your problem here" := rfl
    rw [hl] at he
    have hr : priorModel.effectText = "user entered content" := rfl
    rw [hr] at he
    exact absurd he (by decide)
  · rfl

/-- Claim C7 amended: only an import whose input fails to parse is
rejected atomically — the live model is retained exactly and the
user-visible notice shown; a successfully parsed object, even one with no
categories array, always replaces the model (the six categories rebuilt
from defaults when the array is missing) and shows no notice. -/
theorem import_parse_failure_atomic :
    (∀ (fb : Nat → Nat → String) (m : Model), fileImportJSON fb none m = (m, true)) ∧
    (∀ (fb : Nat → Nat → String) (obj : ImportObj) (m : Model),
      fileImportJSON fb (some obj) m = (applyImport fb obj, false)) ∧
    (applyImport (fun _ _ => "f") invalidImportObj).categories =
      [ ⟨"cat0", Side.top, "People", [mkBlock "f" (3/10)]⟩,
        ⟨"cat1", Side.top, "Methods", [mkBlock "f" (3/10)]⟩,
        ⟨"cat2", Side.top, "Machines", [mkBlock "f" (3/10)]⟩,
        ⟨"cat3", Side.bottom, "Materials", [mkBlock "f" (3/10)]⟩,
        ⟨"cat4", Side.bottom, "Measurement", [mkBlock "f" (3/10)]⟩,
        ⟨"cat5", Side.bottom, "Environment", [mkBlock "f" (3/10)]⟩ ] :=
  ⟨fun _ _ => rfl, fun _ _ _ => rfl, rfl⟩

/-- Mapping keeps a list nonempty. -/
theorem map_ne_nil {α β : Type} {l : List α} (h : l ≠ []) (f : α → β) : l.map f ≠ [] := by
  cases l with
  | nil => exact absurd rfl h
  | cons x xs => exact List.cons_ne_nil _ _

/-- Appending one element keeps a list nonempty. -/
theorem append_singleton_ne_nil {α : Type} (l : List α) (x : α) : l ++ [x] ≠ [] := by
  cases l with
  | nil => exact List.cons_ne_nil _ _
  | cons a as => exact List.cons_ne_nil _ _

/-- The second component of an enumFrom member is a member of the list. -/
theorem snd_mem_of_mem_enumFrom {α : Type} :
    ∀ (l : List α) (n : Nat) (p : Nat × α), p ∈ l.enumFrom n → p.2 ∈ l := by
  intro l
  induction l with
  | nil => intro n p hp; cases hp
  | cons x xs ih =>
    intro n p hp
    have hp2 : p ∈ (n, x) :: xs.enumFrom (n + 1) := hp
    rcases List.mem_cons.1 hp2 with rfl | hp3
    · exact List.mem_cons_self _ _
    · exact List.mem_cons_of_mem _ (ih (n + 1) p hp3)

/-- Counterexample to claim C8 as stated: deleting the single heading of
the first default category leaves that category with zero blocks (the
handler filters with no refill). -/
theorem delete_last_heading_empties_category :
    ¬ blockInv (delBlockClick defaultModel "cat0" "blk0") := by
  intro h
  have heq : delBlockClick defaultModel "cat0" "blk0" =
      { defaultModel with categories :=
          [⟨"cat0", Side.top, "People", []⟩, defCat1, defCat2, defCat3, defCat4, defCat5] } := rfl
  have hmem : (⟨"cat0", Side.top, "People", []⟩ : Category) ∈
      (delBlockClick defaultModel "cat0" "blk0").categories := by
    rw [heq]
    exact List.mem_cons_self _ _
  exact h _ hmem rfl

/-- updateBlocks preserves nonempty block lists when the rewrite does. -/
theorem blockInv_updateBlocks {m : Model} {cid : String} {f : List Block → List Block}
    (hm : blockInv m) (hf : ∀ bs, bs ≠ ([] : List Block) → f bs ≠ []) :
    blockInv (updateBlocks m cid f) := by
  intro c hc
  rcases List.mem_map.1 hc with ⟨c0, hc0, rfl⟩
  by_cases h : c0.id = cid
  · simp only [if_pos h]
    exact hf c0.blocks (hm c0 hc0)
  · simp only [if_neg h]
    exact hm c0 hc0

/-- updateBlocks preserves nonempty bullet lists when the rewrite does. -/
theorem bulletInv_updateBlocks {m : Model} {cid : String} {f : List Block → List Block}
    (hm : bulletInv m)
    (hf : ∀ bs, (∀ b ∈ bs, b.bullets ≠ ([] : List String)) → ∀ b ∈ f bs, b.bullets ≠ []) :
    bulletInv (updateBlocks m cid f) := by
  intro c hc b hb
  rcases List.mem_map.1 hc with ⟨c0, hc0, rfl⟩
  by_cases h : c0.id = cid
  · simp only [if_pos h] at hb
    exact hf c0.blocks (hm c0 hc0) b hb
  · simp only [if_neg h] at hb
    exact hm c0 hc0 b hb

/-- updateBlock preserves nonempty bullet lists when the per-block rewrite
does. -/
theorem bulletInv_updateBlock {m : Model} {cid bid : String} {f : Block → Block}
    (hm : bulletInv m) (hf : ∀ b, b.bullets ≠ ([] : List String) → (f b).bullets ≠ []) :
    bulletInv (updateBlock m cid bid f) := by
  apply bulletInv_updateBlocks hm
  intro bs hbs b hb
  rcases List.mem_map.1 hb with ⟨b0, hb0, rfl⟩
  by_cases h : b0.id = bid
  · rw [if_pos h]
    exact hf b0 (hbs b0 hb0)
  · rw [if_neg h]
    exact hbs b0 hb0

/-- Every category slot an import builds has a nonempty block list
provided the payload never carries an explicitly empty blocks array. -/
theorem importCategoryAt_blocks_ne_nil (fb : Nat → Nat → String) (cats : List PCategory)
    (i : Nat) (dc : Category)
    (h : ∀ sc ∈ cats, ∀ bs, sc.blocks = some bs → bs ≠ []) :
    (importCategoryAt fb cats i dc).blocks ≠ [] := by
  simp only [importCategoryAt]
  cases hg : cats.get? i with
  | none =>
    simp only [hg, Option.getD]
    exact List.cons_ne_nil _ _
  | some sc =>
    simp only [hg, Option.getD]
    cases hb : sc.blocks with
    | none => exact List.cons_ne_nil _ _
    | some bs =>
      have hne := h sc (List.get?_mem hg) bs hb
      cases bs with
      | nil => exact absurd rfl hne
      | cons x xs => exact List.cons_ne_nil _ _

/-- Every block an import builds has a nonempty bullet list provided the
payload never carries an explicitly empty bullets array. -/
theorem importCategoryAt_bullets_ne_nil (fb : Nat → Nat → String) (cats : List PCategory)
    (i : Nat) (dc : Category)
    (h : ∀ sc ∈ cats, ∀ bs, sc.blocks = some bs →
      ∀ sb ∈ bs, ∀ l, sb.bullets = some l → l ≠ []) :
    ∀ b ∈ (importCategoryAt fb cats i dc).blocks, b.bullets ≠ [] := by
  intro b hb
  simp only [importCategoryAt] at hb
  cases hg : cats.get? i with
  | none =>
    rw [hg] at hb
    simp only [Option.getD] at hb
    rw [List.mem_singleton.1 hb]
    exact List.cons_ne_nil _ _
  | some sc =>
    rw [hg] at hb
    simp only [Option.getD] at hb
    cases hbl : sc.blocks with
    | none =>
      rw [hbl] at hb
      rw [List.mem_singleton.1 hb]
      exact List.cons_ne_nil _ _
    | some bs =>
      rw [hbl] at hb
      simp only [List.mem_map] at hb
      rcases hb with ⟨jb, hjb, rfl⟩
      cases hby : jb.2.bullets with
      | none =>
        show (jb.2.bullets.getD [""]) ≠ []
        rw [hby]
        exact List.cons_ne_nil _ _
      | some l =>
        have hmem : jb.2 ∈ bs := snd_mem_of_mem_enumFrom bs 0 jb hjb
        have hne := h sc (List.get?_mem hg) bs hbl jb.2 hmem l hby
        show (jb.2.bullets.getD [""]) ≠ []
        rw [hby]
        exact hne

/-- Claim C8 amended: bullet deletion restores one empty bullet when the
last bullet is removed; block creation and the add commands preserve both
the at-least-one-block and at-least-one-bullet invariants, heading
deletion preserves the bullet invariant, and an import preserves them
provided no payload category carries an explicitly empty blocks array and
no payload block an explicitly empty bullets array (deleting a category's
last heading, or importing such an empty array, does break them: the code
passes empty lists through). -/
theorem invariants_after_operations :
    (∀ (m : Model) (cid bid : String) (i : Nat),
      bulletInv m → bulletInv (delBulletClick m cid bid i)) ∧
    (∀ (m : Model) (cid bid : String) (i : Nat),
      blockInv m → blockInv (delBulletClick m cid bid i)) ∧
    (∀ (m : Model) (cid bid : String), bulletInv m → bulletInv (delBlockClick m cid bid)) ∧
    (∀ (m : Model) (sc sb : Option String) (fid : String),
      (blockInv m → blockInv (btnAddHeadingClick m sc sb fid)) ∧
      (bulletInv m → bulletInv (btnAddHeadingClick m sc sb fid))) ∧
    (∀ (m : Model) (sc sb : Option String),
      (blockInv m → blockInv (btnAddBulletClick m sc sb)) ∧
      (bulletInv m → bulletInv (btnAddBulletClick m sc sb))) ∧
    (∀ (fb : Nat → Nat → String) (obj : ImportObj),
      (∀ sc ∈ obj.categories.getD [], ∀ bs, sc.blocks = some bs → bs ≠ []) →
      blockInv (applyImport fb obj)) ∧
    (∀ (fb : Nat → Nat → String) (obj : ImportObj),
      (∀ sc ∈ obj.categories.getD [], ∀ bs, sc.blocks = some bs →
        ∀ sb ∈ bs, ∀ l, sb.bullets = some l → l ≠ []) →
      bulletInv (applyImport fb obj)) := by
  refine ⟨?_, ?_, ?_, ?_, ?_, ?_, ?_⟩
  · intro m cid bid i hm
    apply bulletInv_updateBlock hm
    intro b hb
    show (if (b.bullets.eraseIdx i).isEmpty then [""] else b.bullets.eraseIdx i) ≠ []
    by_cases hc : (b.bullets.eraseIdx i).isEmpty = true
    · simp only [if_pos hc]
      exact List.cons_ne_nil _ _
    · simp only [if_neg hc]
      intro h0
      exact hc (by rw [h0]; rfl)
  · intro m cid bid i hm
    apply blockInv_updateBlocks hm
    intro bs hbs
    exact map_ne_nil hbs _
  · intro m cid bid hm
    apply bulletInv_updateBlocks hm
    intro bs hbs b hb
    exact hbs b (List.mem_of_mem_filter hb)
  · intro m sc sb fid
    constructor
    · intro hm
      show blockInv (btnAddHeadingClick m sc sb fid)
      cases sc with
      | none => exact hm
      | some cid =>
        simp only [btnAddHeadingClick]
        cases hfind : m.categories.find? (fun c => c.id == cid) with
        | none => exact hm
        | some cat =>
          apply blockInv_updateBlocks hm
          intro bs hbs
          exact append_singleton_ne_nil _ _
    · intro hm
      show bulletInv (btnAddHeadingClick m sc sb fid)
      cases sc with
      | none => exact hm
      | some cid =>
        simp only [btnAddHeadingClick]
        cases hfind : m.categories.find? (fun c => c.id == cid) with
        | none => exact hm
        | some cat =>
          apply bulletInv_updateBlocks hm
          intro bs hbs b hb
          rcases List.mem_append.1 hb with h | h
          · exact hbs b h
          · rw [List.mem_singleton.1 h]
            exact List.cons_ne_nil _ _
  · intro m sc sb
    constructor
    · intro hm
      show blockInv (btnAddBulletClick m sc sb)
      cases sc with
      | none => cases sb <;> exact hm
      | some cid =>
        cases sb with
        | none => exact hm
        | some bid =>
          apply blockInv_updateBlocks hm
          intro bs hbs
          exact map_ne_nil hbs _
    · intro hm
      show bulletInv (btnAddBulletClick m sc sb)
      cases sc with
      | none => cases sb <;> exact hm
      | some cid =>
        cases sb with
        | none => exact hm
        | some bid =>
          apply bulletInv_updateBlock hm
          intro b hb
          exact append_singleton_ne_nil _ _
  · intro fb obj h
    intro c hc
    have hc2 : c ∈ importCategories fb (obj.categories.getD []) := hc
    simp only [importCategories, List.mem_map] at hc2
    rcases hc2 with ⟨p, _, rfl⟩
    exact importCategoryAt_blocks_ne_nil fb _ p.1 p.2 h
  · intro fb obj h
    intro c hc b hb
    have hc2 : c ∈ importCategories fb (obj.categories.getD []) := hc
    simp only [importCategories, List.mem_map] at hc2
    rcases hc2 with ⟨p, _, rfl⟩
    exact importCategoryAt_bullets_ne_nil fb _ p.1 p.2 h b hb

end Fishbone

